import Mathlib

set_option linter.unusedVariables false

/-! Shallow embedding of the NachOS MP3 multilevel-feedback-queue scheduler
(src/NachOS-4.0_MP3/code/threads/scheduler.cc) and proofs about its
admission, aging, selection and dispatch logic.

Machine `int` fields (priority, predictedBurst, lastRunTicks, agingMark,
totalTicks) are modelled as `Nat`: every value the scheduler itself writes
into them is non-negative, C `/ 2` on non-negative ints is `Nat` floor
division, and the aging guard `totalTicks - agingMark > 1500` agrees with
truncated `Nat` subtraction (both are false whenever `agingMark >
totalTicks`). -/

/-- Thread status enumeration. Modelled from the spec: thread.h is not under
src/; the spec (section 3) lists the statuses RUNNING, READY, BLOCKED,
FINISHED. Only READY and RUNNING are written by scheduler.cc. -/
inductive ThreadStatus where
  | RUNNING
  | READY
  | BLOCKED
  | FINISHED
deriving DecidableEq, Repr

/-- The scheduler-relevant fields of a NachOS `Thread` object.  `tid` is the
thread id (`getID`), `predict` is `predictedBurst` (`getPredict`/`setPredict`),
`lastTime` is `lastRunTicks` (`getLastTime`/`setLastTime`), and `agingCount`
is the aging mark (`getAgingCount`/`setAgingCount`). -/
structure Thread where
  tid : Nat
  status : ThreadStatus
  priority : Nat
  predict : Nat
  lastTime : Nat
  agingCount : Nat
deriving DecidableEq, Repr

/-- The scheduler plus the kernel state scheduler.cc reads and writes:
the three ready queues `L1 L2 L3` and `toBeDestroyed` (Scheduler members),
`current` (`kernel->currentThread`), `roundRobin` (the flag set through
`kernel->alarm->setRoundRobin`), `yieldOnReturn` (the flag set through
`kernel->interrupt->YieldOnReturn`), `totalTicks`
(`kernel->stats->totalTicks`), and a ghost trace `destroyed` recording the
threads reclaimed by `delete toBeDestroyed`. -/
structure SchedState where
  L1 : List Thread
  L2 : List Thread
  L3 : List Thread
  current : Thread
  roundRobin : Bool
  yieldOnReturn : Bool
  toBeDestroyed : Option Thread
  destroyed : List Thread
  totalTicks : Nat
deriving DecidableEq, Repr

/-- scheduler.cc line 32: `cmpPriority(a,b) = a->getPriority() > b->getPriority()`. -/
def cmpPriority (a b : Thread) : Bool :=
  decide (b.priority < a.priority)

/-- scheduler.cc line 36: `cmpPredict(a,b)` compares
`a->getPredict()/2 + a->getLastTime()/2` against the same expression for `b`
with `>`. -/
def cmpPredict (a b : Thread) : Bool :=
  decide (b.predict / 2 + b.lastTime / 2 < a.predict / 2 + a.lastTime / 2)

/-- The L1 ordering key named `score` by the spec:
`score(t) = predictedBurst(t)/2 + lastRunTicks(t)/2`.  `cmpPredict a b`
is exactly `score b < score a` (see `cmpPredict_score`). -/
def score (t : Thread) : Nat := t.predict / 2 + t.lastTime / 2

theorem cmpPredict_score (a b : Thread) : cmpPredict a b = decide (score b < score a) := rfl

/-- Modelled from the spec: `SortedList<Thread*>::Insert` with comparator
`cmpPredict` (list.h is not under src/).  Spec section 4.1: L1 is ordered by
ascending `score`, ties broken by insertion order (stable insert), so the new
element is placed before the first resident whose score is strictly larger. -/
def insertPredict (t : Thread) : List Thread → List Thread
  | [] => [t]
  | x :: xs => if cmpPredict x t then t :: x :: xs else x :: insertPredict t xs

/-- Modelled from the spec: `SortedList<Thread*>::Insert` with comparator
`cmpPriority` (list.h is not under src/).  Spec section 4.1: L2 is ordered by
descending `priority`, ties broken by insertion order, so the new element is
placed before the first resident whose priority is strictly smaller. -/
def insertPriority (t : Thread) : List Thread → List Thread
  | [] => [t]
  | x :: xs => if cmpPriority t x then t :: x :: xs else x :: insertPriority t xs

/-- `List<Thread*>::Remove(now)`: remove the (first) occurrence of the thread
with the given id; queues hold pointers, so identity is the thread id. -/
def removeThread (i : Nat) : List Thread → List Thread
  | [] => []
  | x :: xs => if x.tid = i then xs else x :: removeThread i xs

/-- scheduler.cc lines 74-75: `thread->setStatus(READY)` and
`thread->setAgingCount(kernel->stats->totalTicks)`. -/
def stampReady (S : SchedState) (thread : Thread) : Thread :=
  { thread with status := ThreadStatus.READY, agingCount := S.totalTicks }

/-- Scheduler::ReadyToRun, scheduler.cc lines 68-89.  Sets the thread's
status to READY and stamps its aging mark with the current tick, then routes
it by priority band: `< 50` appended to L3, `< 100` sorted-inserted into L2,
`< 150` sorted-inserted into L1 with the preemption check
`kernel->currentThread->getPriority() > 100 && cmpPredict(thread, currentThread)`
requesting a yield-on-return; a priority `>= 150` thread is enqueued nowhere.
Returns the new state together with the updated thread object. -/
def ReadyToRun (S : SchedState) (thread : Thread) : SchedState × Thread :=
  let t : Thread := stampReady S thread
  if t.priority < 50 then
    ({ S with L3 := S.L3 ++ [t] }, t)
  else if t.priority < 100 then
    ({ S with L2 := insertPriority t S.L2 }, t)
  else if t.priority < 150 then
    ({ S with L1 := insertPredict t S.L1,
              yieldOnReturn :=
                if decide (100 < S.current.priority) && cmpPredict t S.current then true
                else S.yieldOnReturn }, t)
  else (S, t)

/-- Index naming which of the three ready queues `Scheduler::aging` was
called on (the source passes the list pointer and compares it to L1/L2). -/
inductive QIdx where
  | Q1
  | Q2
  | Q3
deriving DecidableEq, Repr

def getQ (S : SchedState) : QIdx → List Thread
  | QIdx.Q1 => S.L1
  | QIdx.Q2 => S.L2
  | QIdx.Q3 => S.L3

def setQ (S : SchedState) : QIdx → List Thread → SchedState
  | QIdx.Q1, l => { S with L1 := l }
  | QIdx.Q2, l => { S with L2 := l }
  | QIdx.Q3, l => { S with L3 := l }

/-- The field updates scheduler.cc lines 104-106 perform on an aged thread:
`setAgingCount(getAgingCount() + 1500)`, `setPriority(getPriority() + 10)`,
then clamp `if (getPriority() > 149) setPriority(149)`. -/
def agedThread (now : Thread) : Thread :=
  let t1 : Thread := { now with agingCount := now.agingCount + 1500,
                                priority := now.priority + 10 }
  if t1.priority > 149 then { t1 with priority := 149 } else t1

/-- scheduler.cc line 108, `list->Remove(now)`: the state after the aged
thread is removed from the queue `q` being traversed. -/
def removedState (q : QIdx) (S : SchedState) (now : Thread) : SchedState :=
  setQ S q (removeThread now.tid (getQ S q))

/-- scheduler.cc lines 109-123: re-insert the aged thread into the queue of
its new priority band (`> 99` to L1, `> 49` to L2, otherwise appended to L3). -/
def routeAged (t : Thread) (S1 : SchedState) : SchedState :=
  if t.priority > 99 then { S1 with L1 := insertPredict t S1.L1 }
  else if t.priority > 49 then { S1 with L2 := insertPriority t S1.L2 }
  else { S1 with L3 := S1.L3 ++ [t] }

/-- The body of the loop of `Scheduler::aging` (scheduler.cc lines 102-124)
for one visited thread `now` of the queue `q` being aged: if
`totalTicks - agingCount > 1500`, bump the mark and the clamped priority,
remove the thread from `q`, and re-insert it into the queue of its new
priority band. -/
def agingOne (q : QIdx) (S : SchedState) (now : Thread) : SchedState :=
  if S.totalTicks - now.agingCount > 1500 then
    routeAged (agedThread now) (removedState q S now)
  else S

/-- Scheduler::aging, scheduler.cc lines 99-126.  Modelled from the spec for
the traversal (ListIterator is in list.h, not under src/): spec section 4.3
says every thread resident in the queue at the start of the call is visited
exactly once, so the pass folds `agingOne` over the queue contents captured
at entry. -/
def aging (q : QIdx) (S : SchedState) : SchedState :=
  List.foldl (agingOne q) S (getQ S q)

/-- The aging prefix of `Scheduler::FindNextToRun` (scheduler.cc lines
133-135): age the three queues in the fixed order L1, L2, L3. -/
def ageAll (S : SchedState) : SchedState :=
  aging QIdx.Q3 (aging QIdx.Q2 (aging QIdx.Q1 S))

/-- Scheduler::FindNextToRun, scheduler.cc lines 128-159.  After aging all
three queues, remove the front of the highest non-empty queue in the order
L1, L2, L3; selecting from L1 or L2 disables the round-robin flag, selecting
from L3 enables it; removal from L1 recomputes `predict` from the old
`predict` and `lastTime` before zeroing `lastTime`, removal from L2 or L3
only zeroes `lastTime`; if all queues are empty return the NULL sentinel
(`none`). -/
def FindNextToRun (S : SchedState) : Option Thread × SchedState :=
  let S2 := ageAll S
  match S2.L1 with
  | thread :: rest =>
      (some { thread with predict := thread.predict / 2 + thread.lastTime / 2,
                          lastTime := 0 },
       { S2 with L1 := rest, roundRobin := false })
  | [] =>
    match S2.L2 with
    | thread :: rest =>
        (some { thread with lastTime := 0 }, { S2 with L2 := rest, roundRobin := false })
    | [] =>
      match S2.L3 with
      | thread :: rest =>
          (some { thread with lastTime := 0 }, { S2 with L3 := rest, roundRobin := true })
      | [] => (none, S2)

/-- The portion of Scheduler::Run (scheduler.cc lines 178-210) executed
before the `SWITCH` context-switch primitive, on the outgoing thread's
stack: if `finishing`, assert that no destruction is already pending
(`ASSERT(toBeDestroyed == NULL)`, a fatal error modelled as `Except.error`)
and mark the outgoing `kernel->currentThread` in the single
`toBeDestroyed` slot; make `nextThread` the current thread with status
RUNNING.  No thread is destroyed here: `destroyed` is untouched. -/
def RunPreSwitch (S : SchedState) (nextThread : Thread) (finishing : Bool) :
    Except String SchedState :=
  if finishing then
    match S.toBeDestroyed with
    | some _ => Except.error "ASSERT failed: toBeDestroyed == NULL"
    | none =>
        Except.ok { S with toBeDestroyed := some S.current,
                           current := { nextThread with status := ThreadStatus.RUNNING } }
  else
    Except.ok { S with current := { nextThread with status := ThreadStatus.RUNNING } }

/-- Scheduler::CheckToBeDestroyed, scheduler.cc lines 237-244, run on the far
side of `SWITCH`: reclaim the pending thread, if any, and clear the slot. -/
def CheckToBeDestroyed (S : SchedState) : SchedState :=
  match S.toBeDestroyed with
  | some t => { S with destroyed := t :: S.destroyed, toBeDestroyed := none }
  | none => S

/-- Band agreement invariant (spec sections 3 and 8): every L1 resident has
priority at least 100, every L2 resident has priority in [50,100), every L3
resident has priority below 50. -/
def BandOK (S : SchedState) : Prop :=
  (∀ t ∈ S.L1, 100 ≤ t.priority) ∧
  (∀ t ∈ S.L2, 50 ≤ t.priority ∧ t.priority < 100) ∧
  (∀ t ∈ S.L3, t.priority < 50)

/-- All threads resident in some ready queue. -/
def allThreads (S : SchedState) : List Thread :=
  S.L1 ++ S.L2 ++ S.L3

/-- A convenient constructor: `mkThread id priority predict lastTime agingCount`.  -/
def mkThread (i p pr lt ac : Nat) : Thread :=
  { tid := i, status := ThreadStatus.READY, priority := p,
    predict := pr, lastTime := lt, agingCount := ac }

/-! ### Basic lemmas about the queue containers -/

theorem cmpPredict_eq_true {a b : Thread} : cmpPredict a b = true ↔ score b < score a := by
  simp [cmpPredict, score]

theorem cmpPredict_eq_false {a b : Thread} : cmpPredict a b = false ↔ score a ≤ score b := by
  simp [cmpPredict, score, Nat.not_lt]

theorem mem_insertPredict {x t : Thread} {l : List Thread} :
    x ∈ insertPredict t l ↔ x = t ∨ x ∈ l := by
  induction l with
  | nil => simp [insertPredict]
  | cons a as ih =>
      by_cases h : cmpPredict a t = true
      · simp [insertPredict, h]
      · simp only [Bool.not_eq_true] at h
        simp [insertPredict, h, ih]
        tauto

theorem mem_insertPriority {x t : Thread} {l : List Thread} :
    x ∈ insertPriority t l ↔ x = t ∨ x ∈ l := by
  induction l with
  | nil => simp [insertPriority]
  | cons a as ih =>
      by_cases h : cmpPriority t a = true
      · simp [insertPriority, h]
      · simp only [Bool.not_eq_true] at h
        simp [insertPriority, h, ih]
        tauto

theorem mem_removeThread {x : Thread} {i : Nat} {l : List Thread}
    (h : x ∈ removeThread i l) : x ∈ l := by
  induction l with
  | nil => simp [removeThread] at h
  | cons a as ih =>
      by_cases ha : a.tid = i
      · simp [removeThread, ha] at h
        simp [h]
      · simp [removeThread, ha] at h
        rcases h with h | h
        · simp [h]
        · simp [ih h]

theorem mem_removeThread_of_ne {x : Thread} {i : Nat} {l : List Thread}
    (hx : x ∈ l) (hne : x.tid ≠ i) : x ∈ removeThread i l := by
  induction l with
  | nil => simp at hx
  | cons a as ih =>
      rcases List.mem_cons.mp hx with h | h
      · subst h
        simp [removeThread, hne]
      · by_cases ha : a.tid = i
        · simpa [removeThread, ha] using h
        · simp [removeThread, ha]
          exact Or.inr (ih h)

theorem getQ_setQ_same (S : SchedState) (q : QIdx) (l : List Thread) :
    getQ (setQ S q l) q = l := by
  cases q <;> rfl

theorem getQ_setQ_other (S : SchedState) {q q' : QIdx} (l : List Thread)
    (h : q' ≠ q) : getQ (setQ S q l) q' = getQ S q' := by
  cases q <;> cases q' <;> first | rfl | exact absurd rfl h

theorem totalTicks_setQ (S : SchedState) (q : QIdx) (l : List Thread) :
    (setQ S q l).totalTicks = S.totalTicks := by
  cases q <;> rfl

theorem totalTicks_removedState (q : QIdx) (S : SchedState) (u : Thread) :
    (removedState q S u).totalTicks = S.totalTicks := by
  cases q <;> rfl

theorem totalTicks_routeAged (t : Thread) (S1 : SchedState) :
    (routeAged t S1).totalTicks = S1.totalTicks := by
  unfold routeAged
  split
  · rfl
  · split <;> rfl

theorem totalTicks_agingOne (q : QIdx) (S : SchedState) (u : Thread) :
    (agingOne q S u).totalTicks = S.totalTicks := by
  unfold agingOne
  split
  · rw [totalTicks_routeAged, totalTicks_removedState]
  · rfl

theorem totalTicks_foldl_agingOne (q : QIdx) (us : List Thread) :
    ∀ S : SchedState, (List.foldl (agingOne q) S us).totalTicks = S.totalTicks := by
  induction us with
  | nil => intro S; rfl
  | cons u us ih => intro S; rw [List.foldl_cons, ih, totalTicks_agingOne]

theorem tid_agedThread (t : Thread) : (agedThread t).tid = t.tid := by
  simp only [agedThread]
  split <;> rfl

/-! ### Membership preservation through an aging step -/

theorem mem_getQ_routeAged {x t : Thread} {q' : QIdx} {S1 : SchedState}
    (hx : x ∈ getQ S1 q') : x ∈ getQ (routeAged t S1) q' := by
  unfold routeAged
  split
  · cases q' <;> simp [getQ] at hx ⊢
    · exact mem_insertPredict.mpr (Or.inr hx)
    · exact hx
    · exact hx
  · split
    · cases q' <;> simp [getQ] at hx ⊢
      · exact hx
      · exact mem_insertPriority.mpr (Or.inr hx)
      · exact hx
    · cases q' <;> simp [getQ] at hx ⊢
      · exact hx
      · exact hx
      · exact Or.inl hx

theorem self_mem_routeAged_L1 {t : Thread} {S1 : SchedState} (h : t.priority > 99) :
    t ∈ (routeAged t S1).L1 := by
  unfold routeAged
  rw [if_pos h]
  exact mem_insertPredict.mpr (Or.inl rfl)

theorem self_mem_routeAged_L2 {t : Thread} {S1 : SchedState}
    (h1 : ¬ t.priority > 99) (h2 : t.priority > 49) : t ∈ (routeAged t S1).L2 := by
  unfold routeAged
  rw [if_neg h1, if_pos h2]
  exact mem_insertPriority.mpr (Or.inl rfl)

theorem self_mem_routeAged_L3 {t : Thread} {S1 : SchedState}
    (h1 : ¬ t.priority > 99) (h2 : ¬ t.priority > 49) : t ∈ (routeAged t S1).L3 := by
  unfold routeAged
  rw [if_neg h1, if_neg h2]
  simp

theorem mem_getQ_removedState {x u : Thread} {q q' : QIdx} {S : SchedState}
    (hx : x ∈ getQ S q') (hne : x.tid ≠ u.tid) : x ∈ getQ (removedState q S u) q' := by
  unfold removedState
  by_cases h : q' = q
  · subst h
    rw [getQ_setQ_same]
    exact mem_removeThread_of_ne hx hne
  · rw [getQ_setQ_other S _ h]
    exact hx

theorem agingOne_mem_preserved {x u : Thread} {q q' : QIdx} {S : SchedState}
    (hx : x ∈ getQ S q') (hne : x.tid ≠ u.tid) : x ∈ getQ (agingOne q S u) q' := by
  unfold agingOne
  split
  · exact mem_getQ_routeAged (mem_getQ_removedState hx hne)
  · exact hx

theorem foldl_agingOne_mem_preserved {x : Thread} {q q' : QIdx} {us : List Thread} :
    ∀ {S : SchedState}, x ∈ getQ S q' → (∀ u ∈ us, x.tid ≠ u.tid) →
      x ∈ getQ (List.foldl (agingOne q) S us) q' := by
  induction us with
  | nil => intro S hx _; exact hx
  | cons u us ih =>
      intro S hx hne
      rw [List.foldl_cons]
      exact ih (agingOne_mem_preserved hx (hne u (List.mem_cons_self u us)))
        (fun v hv => hne v (List.mem_cons_of_mem u hv))

/-! ### The band agreement invariant is preserved -/

theorem bandOK_routeAged {t : Thread} {S1 : SchedState} (h : BandOK S1) :
    BandOK (routeAged t S1) := by
  obtain ⟨h1, h2, h3⟩ := h
  unfold routeAged
  split
  · refine ⟨?_, h2, h3⟩
    intro u hu
    rcases mem_insertPredict.mp hu with rfl | hu
    · omega
    · exact h1 u hu
  · split
    · refine ⟨h1, ?_, h3⟩
      intro u hu
      rcases mem_insertPriority.mp hu with rfl | hu
      · omega
      · exact h2 u hu
    · refine ⟨h1, h2, ?_⟩
      intro u hu
      rcases List.mem_append.mp hu with hu | hu
      · exact h3 u hu
      · simp at hu
        subst hu
        omega

theorem bandOK_removedState {u : Thread} {q : QIdx} {S : SchedState} (h : BandOK S) :
    BandOK (removedState q S u) := by
  obtain ⟨h1, h2, h3⟩ := h
  unfold removedState
  cases q
  · exact ⟨fun x hx => h1 x (mem_removeThread hx), h2, h3⟩
  · exact ⟨h1, fun x hx => h2 x (mem_removeThread hx), h3⟩
  · exact ⟨h1, h2, fun x hx => h3 x (mem_removeThread hx)⟩

theorem bandOK_agingOne {u : Thread} {q : QIdx} {S : SchedState} (h : BandOK S) :
    BandOK (agingOne q S u) := by
  unfold agingOne
  split
  · exact bandOK_routeAged (bandOK_removedState h)
  · exact h

theorem bandOK_foldl_agingOne {q : QIdx} {us : List Thread} :
    ∀ {S : SchedState}, BandOK S → BandOK (List.foldl (agingOne q) S us) := by
  induction us with
  | nil => intro S h; exact h
  | cons u us ih =>
      intro S h
      rw [List.foldl_cons]
      exact ih (bandOK_agingOne h)

theorem bandOK_aging {q : QIdx} {S : SchedState} (h : BandOK S) : BandOK (aging q S) :=
  bandOK_foldl_agingOne h

theorem bandOK_ageAll {S : SchedState} (h : BandOK S) : BandOK (ageAll S) :=
  bandOK_aging (bandOK_aging (bandOK_aging h))

/-! ### ReadyToRun branch equations -/

theorem stampReady_priority (S : SchedState) (t : Thread) :
    (stampReady S t).priority = t.priority := rfl

theorem stampReady_tid (S : SchedState) (t : Thread) :
    (stampReady S t).tid = t.tid := rfl

theorem ReadyToRun_L3_eq {S : SchedState} {t : Thread} (h : t.priority < 50) :
    ReadyToRun S t = ({ S with L3 := S.L3 ++ [stampReady S t] }, stampReady S t) := by
  simp only [ReadyToRun, stampReady_priority]
  rw [if_pos h]

theorem ReadyToRun_L2_eq {S : SchedState} {t : Thread}
    (h1 : 50 ≤ t.priority) (h2 : t.priority < 100) :
    ReadyToRun S t = ({ S with L2 := insertPriority (stampReady S t) S.L2 }, stampReady S t) := by
  simp only [ReadyToRun, stampReady_priority]
  rw [if_neg (by omega), if_pos h2]

theorem ReadyToRun_L1_eq {S : SchedState} {t : Thread}
    (h1 : 100 ≤ t.priority) (h2 : t.priority < 150) :
    ReadyToRun S t =
      ({ S with L1 := insertPredict (stampReady S t) S.L1,
                yieldOnReturn :=
                  if decide (100 < S.current.priority) && cmpPredict (stampReady S t) S.current
                  then true else S.yieldOnReturn }, stampReady S t) := by
  simp only [ReadyToRun, stampReady_priority]
  rw [if_neg (by omega), if_neg (by omega), if_pos h2]

theorem ReadyToRun_over_eq {S : SchedState} {t : Thread} (h : 150 ≤ t.priority) :
    ReadyToRun S t = (S, stampReady S t) := by
  simp only [ReadyToRun, stampReady_priority]
  rw [if_neg (by omega), if_neg (by omega), if_neg (by omega)]

/-! ### Concrete inputs used to instantiate the claims -/

def runningC4 : Thread := mkThread 0 110 100 0 0

def newC4 : Thread := mkThread 1 120 60 0 0

def longC4 : Thread := mkThread 2 120 200 0 0

def stateC4 : SchedState :=
  { L1 := [], L2 := [], L3 := [], current := runningC4, roundRobin := false,
    yieldOnReturn := false, toBeDestroyed := none, destroyed := [], totalTicks := 0 }

def nextC1 : Thread := mkThread 3 120 0 0 0

def stateC1 : SchedState :=
  { L1 := [], L2 := [], L3 := [], current := mkThread 4 50 0 0 0, roundRobin := false,
    yieldOnReturn := false, toBeDestroyed := none, destroyed := [], totalTicks := 100 }

/-- Claim C4 (code_bug): the spec requires a yield-on-return exactly when the
newly readied thread enters L1, the running thread's priority is at least 100
and the running thread's score (predictedBurst/2 + lastRunTicks/2) is
strictly greater than the new thread's score; in particular the spec's own
scenario (running thread of score 50 and priority 110, new L1 thread of
score 30) must trigger the yield.  The source (scheduler.cc line 86) instead
tests `currentThread->getPriority() > 100 && cmpPredict(thread, currentThread)`,
which fires only when the incoming thread's score is strictly LARGER than the
running thread's, and excludes a running priority of exactly 100.  Evaluated
at the spec's scenario the code issues no yield; evaluated at an incoming
thread of score 100 (larger than the running 50) the code does yield,
exhibiting the reversed comparison. -/
theorem C4_preemption_trigger_code_bug :
    score runningC4 = 50 ∧ runningC4.priority = 110 ∧ score newC4 = 30 ∧
    100 ≤ newC4.priority ∧ newC4.priority < 150 ∧
    stateC4.current = runningC4 ∧ stateC4.yieldOnReturn = false ∧
    (ReadyToRun stateC4 newC4).1.yieldOnReturn = false ∧
    score longC4 = 100 ∧ (ReadyToRun stateC4 longC4).1.yieldOnReturn = true := by
  decide

/-- Claim C1: deferred destruction protocol of `Run(nextThread, finishing)`:
with `finishing` set, a pending destruction is a fatal assertion failure;
otherwise the outgoing thread is only marked in the single `toBeDestroyed`
slot and nothing is destroyed before the context switch (the pre-SWITCH
phase never extends the `destroyed` trace); reclamation happens only in
`CheckToBeDestroyed` on the far side of the switch, which destroys exactly
the pending thread and clears the slot, so at most one thread is pending at
any instant. -/
theorem C1_deferred_destruction (S : SchedState) (nextThread : Thread) :
    (∀ t, S.toBeDestroyed = some t →
        RunPreSwitch S nextThread true = Except.error "ASSERT failed: toBeDestroyed == NULL") ∧
    (S.toBeDestroyed = none →
        RunPreSwitch S nextThread true =
          Except.ok { S with toBeDestroyed := some S.current,
                             current := { nextThread with status := ThreadStatus.RUNNING } }) ∧
    (∀ T, RunPreSwitch S nextThread true = Except.ok T →
        T.destroyed = S.destroyed ∧ T.toBeDestroyed = some S.current) ∧
    (∀ T fin, RunPreSwitch S nextThread fin = Except.ok T → T.destroyed = S.destroyed) ∧
    ((CheckToBeDestroyed S).toBeDestroyed = none) ∧
    ((CheckToBeDestroyed S).destroyed = S.toBeDestroyed.toList ++ S.destroyed) := by
  refine ⟨?_, ?_, ?_, ?_, ?_, ?_⟩
  · intro t ht
    simp [RunPreSwitch, ht]
  · intro h
    simp [RunPreSwitch, h]
  · intro T hT
    rcases hS : S.toBeDestroyed with _ | t
    · simp [RunPreSwitch, hS] at hT
      subst hT
      exact ⟨rfl, rfl⟩
    · simp [RunPreSwitch, hS] at hT
  · intro T fin hT
    cases fin
    · simp [RunPreSwitch] at hT
      subst hT
      rfl
    · rcases hS : S.toBeDestroyed with _ | t
      · simp [RunPreSwitch, hS] at hT
        subst hT
        rfl
      · simp [RunPreSwitch, hS] at hT
  · rcases hS : S.toBeDestroyed with _ | t <;> simp [CheckToBeDestroyed, hS]
  · rcases hS : S.toBeDestroyed with _ | t <;> simp [CheckToBeDestroyed, hS]

/-- Witness for C1: at a concrete state with no pending destruction,
finishing dispatch marks the outgoing current thread in the slot. -/
theorem C1_deferred_destruction_witness :
    RunPreSwitch stateC1 nextC1 true =
      Except.ok { stateC1 with toBeDestroyed := some stateC1.current,
                               current := { nextC1 with status := ThreadStatus.RUNNING } } :=
  (C1_deferred_destruction stateC1 nextC1).2.1 rfl

/-! ### FindNextToRun case equations -/

theorem FindNextToRun_L1 {S : SchedState} {t : Thread} {rest : List Thread}
    (h : (ageAll S).L1 = t :: rest) :
    FindNextToRun S =
      (some { t with predict := t.predict / 2 + t.lastTime / 2, lastTime := 0 },
       { ageAll S with L1 := rest, roundRobin := false }) := by
  simp only [FindNextToRun, h]

theorem FindNextToRun_L2 {S : SchedState} {t : Thread} {rest : List Thread}
    (h1 : (ageAll S).L1 = []) (h2 : (ageAll S).L2 = t :: rest) :
    FindNextToRun S =
      (some { t with lastTime := 0 }, { ageAll S with L2 := rest, roundRobin := false }) := by
  simp only [FindNextToRun, h1, h2]

theorem FindNextToRun_L3 {S : SchedState} {t : Thread} {rest : List Thread}
    (h1 : (ageAll S).L1 = []) (h2 : (ageAll S).L2 = [])
    (h3 : (ageAll S).L3 = t :: rest) :
    FindNextToRun S =
      (some { t with lastTime := 0 }, { ageAll S with L3 := rest, roundRobin := true }) := by
  simp only [FindNextToRun, h1, h2, h3]

theorem FindNextToRun_empty {S : SchedState}
    (h1 : (ageAll S).L1 = []) (h2 : (ageAll S).L2 = []) (h3 : (ageAll S).L3 = []) :
    FindNextToRun S = (none, ageAll S) := by
  simp only [FindNextToRun, h1, h2, h3]

/-- Claim C2: every call to FindNextToRun first ages all three queues in the
fixed order L1, L2, L3 (the definition of `ageAll`), then selects from the
highest-priority non-empty queue in that order: if post-aging L1 is non-empty
the dispatched thread is L1's front, never one from L2 or L3; if L1 is empty
and L2 non-empty the front of L2; if only L3 is non-empty the front of L3;
and the NULL sentinel (`none`) is returned if and only if all three queues
are empty after aging. -/
theorem C2_selection_order (S : SchedState) :
    ((FindNextToRun S).1 = none ↔
        (ageAll S).L1 = [] ∧ (ageAll S).L2 = [] ∧ (ageAll S).L3 = []) ∧
    (∀ t rest, (ageAll S).L1 = t :: rest →
        (FindNextToRun S).1 =
          some { t with predict := t.predict / 2 + t.lastTime / 2, lastTime := 0 } ∧
        (FindNextToRun S).2.L1 = rest) ∧
    ((ageAll S).L1 = [] → ∀ t rest, (ageAll S).L2 = t :: rest →
        (FindNextToRun S).1 = some { t with lastTime := 0 } ∧
        (FindNextToRun S).2.L2 = rest) ∧
    ((ageAll S).L1 = [] → (ageAll S).L2 = [] → ∀ t rest, (ageAll S).L3 = t :: rest →
        (FindNextToRun S).1 = some { t with lastTime := 0 } ∧
        (FindNextToRun S).2.L3 = rest) := by
  refine ⟨?_, ?_, ?_, ?_⟩
  · constructor
    · intro h
      rcases h1 : (ageAll S).L1 with _ | ⟨a, ra⟩
      · rcases h2 : (ageAll S).L2 with _ | ⟨b, rb⟩
        · rcases h3 : (ageAll S).L3 with _ | ⟨c, rc⟩
          · exact ⟨rfl, rfl, rfl⟩
          · rw [FindNextToRun_L3 h1 h2 h3] at h
            simp at h
        · rw [FindNextToRun_L2 h1 h2] at h
          simp at h
      · rw [FindNextToRun_L1 h1] at h
        simp at h
    · rintro ⟨h1, h2, h3⟩
      rw [FindNextToRun_empty h1 h2 h3]
  · intro t rest h
    rw [FindNextToRun_L1 h]
    exact ⟨rfl, rfl⟩
  · intro h1 t rest h2
    rw [FindNextToRun_L2 h1 h2]
    exact ⟨rfl, rfl⟩
  · intro h1 h2 t rest h3
    rw [FindNextToRun_L3 h1 h2 h3]
    exact ⟨rfl, rfl⟩

/-- Claim C8: a thread removed from L1 by FindNextToRun has its
predictedBurst recomputed as old predictedBurst / 2 + old lastRunTicks / 2
(integer division) and only then lastRunTicks reset to 0 (the returned
thread's new predict is computed from the OLD lastTime); a thread removed
from L2 or L3 only has lastRunTicks reset, predictedBurst unchanged. -/
theorem C8_burst_recompute (S : SchedState) :
    (∀ t rest, (ageAll S).L1 = t :: rest →
        ∃ u, (FindNextToRun S).1 = some u ∧
          u.predict = t.predict / 2 + t.lastTime / 2 ∧ u.lastTime = 0 ∧ u.tid = t.tid) ∧
    ((ageAll S).L1 = [] → ∀ t rest, (ageAll S).L2 = t :: rest →
        ∃ u, (FindNextToRun S).1 = some u ∧
          u.lastTime = 0 ∧ u.predict = t.predict ∧ u.tid = t.tid) ∧
    ((ageAll S).L1 = [] → (ageAll S).L2 = [] → ∀ t rest, (ageAll S).L3 = t :: rest →
        ∃ u, (FindNextToRun S).1 = some u ∧
          u.lastTime = 0 ∧ u.predict = t.predict ∧ u.tid = t.tid) := by
  refine ⟨?_, ?_, ?_⟩
  · intro t rest h
    rw [FindNextToRun_L1 h]
    exact ⟨_, rfl, rfl, rfl, rfl⟩
  · intro h1 t rest h2
    rw [FindNextToRun_L2 h1 h2]
    exact ⟨_, rfl, rfl, rfl, rfl⟩
  · intro h1 h2 t rest h3
    rw [FindNextToRun_L3 h1 h2 h3]
    exact ⟨_, rfl, rfl, rfl, rfl⟩

/-- Claim C9: after a FindNextToRun call that selects from L3 the
round-robin quantum-enforcement flag is enabled; after a call that selects
from L1 or L2 it is disabled. -/
theorem C9_quantum_flag (S : SchedState) :
    (∀ t rest, (ageAll S).L1 = t :: rest → (FindNextToRun S).2.roundRobin = false) ∧
    ((ageAll S).L1 = [] → ∀ t rest, (ageAll S).L2 = t :: rest →
        (FindNextToRun S).2.roundRobin = false) ∧
    ((ageAll S).L1 = [] → (ageAll S).L2 = [] → ∀ t rest, (ageAll S).L3 = t :: rest →
        (FindNextToRun S).2.roundRobin = true) := by
  refine ⟨?_, ?_, ?_⟩
  · intro t rest h
    rw [FindNextToRun_L1 h]
  · intro h1 t rest h2
    rw [FindNextToRun_L2 h1 h2]
  · intro h1 h2 t rest h3
    rw [FindNextToRun_L3 h1 h2 h3]

/-! ### Concrete states for the selection-logic witnesses -/

def threadC2 : Thread := mkThread 7 120 40 20 0

def stateC2 : SchedState :=
  { L1 := [threadC2], L2 := [], L3 := [], current := mkThread 8 10 0 0 0,
    roundRobin := true, yieldOnReturn := false, toBeDestroyed := none,
    destroyed := [], totalTicks := 0 }

def threadC8 : Thread := mkThread 10 70 33 5 0

def stateC8 : SchedState :=
  { L1 := [], L2 := [threadC8], L3 := [], current := mkThread 8 10 0 0 0,
    roundRobin := true, yieldOnReturn := false, toBeDestroyed := none,
    destroyed := [], totalTicks := 0 }

def threadC9 : Thread := mkThread 9 20 0 0 0

def stateC9 : SchedState :=
  { L1 := [], L2 := [], L3 := [threadC9], current := mkThread 8 10 0 0 0,
    roundRobin := false, yieldOnReturn := false, toBeDestroyed := none,
    destroyed := [], totalTicks := 0 }

/-- Witness for C2: a concrete state whose post-aging L1 front is dispatched. -/
theorem C2_selection_order_witness :
    (FindNextToRun stateC2).1 =
      some { threadC2 with predict := threadC2.predict / 2 + threadC2.lastTime / 2,
                           lastTime := 0 } ∧
    (FindNextToRun stateC2).2.L1 = [] :=
  (C2_selection_order stateC2).2.1 threadC2 [] (by decide)

/-- Witness for C8: a concrete removal from L2 resets lastTime only. -/
theorem C8_burst_recompute_witness :
    ∃ u, (FindNextToRun stateC8).1 = some u ∧
      u.lastTime = 0 ∧ u.predict = threadC8.predict ∧ u.tid = threadC8.tid :=
  (C8_burst_recompute stateC8).2.1 (by decide) threadC8 [] (by decide)

/-- Witness for C9: a concrete dispatch from L3 enables round-robin. -/
theorem C9_quantum_flag_witness :
    (FindNextToRun stateC9).2.roundRobin = true :=
  (C9_quantum_flag stateC9).2.2 (by decide) (by decide) threadC9 [] (by decide)

/-! ### Per-resident effect of an aging pass -/

theorem agedThread_eq (t : Thread) :
    agedThread t = { t with agingCount := t.agingCount + 1500,
                            priority := min (t.priority + 10) 149 } := by
  by_cases h : t.priority + 10 > 149
  · simp [agedThread, h]
    omega
  · simp [agedThread, h]
    omega

theorem agingOne_stale {q : QIdx} {S : SchedState} {u : Thread}
    (h : ¬ S.totalTicks - u.agingCount > 1500) : agingOne q S u = S := by
  unfold agingOne
  rw [if_neg h]

theorem agingOne_aged {q : QIdx} {S : SchedState} {u : Thread}
    (h : S.totalTicks - u.agingCount > 1500) :
    agingOne q S u = routeAged (agedThread u) (removedState q S u) := by
  unfold agingOne
  rw [if_pos h]

/-- Claim C5: in every call to aging(queue), every thread resident at the
start of the call is visited exactly once (the traversal is the fold over
the entry contents of the queue); a visited thread whose gap
`totalTicks - agingMark` exceeds 1500 has its mark advanced by exactly 1500
(not reset to the current tick), its priority increased by 10 clamped at
149, and every other field untouched, and the updated thread resides in the
queue of its new band afterwards; a resident whose gap is at most 1500 is
left entirely unchanged and still resides in the same queue. -/
theorem C5_aging_effect (S : SchedState) (q : QIdx) (t : Thread)
    (hmem : t ∈ getQ S q) (hnd : ((getQ S q).map Thread.tid).Nodup) :
    (agedThread t = { t with agingCount := t.agingCount + 1500,
                             priority := min (t.priority + 10) 149 }) ∧
    (¬ S.totalTicks - t.agingCount > 1500 → t ∈ getQ (aging q S) q) ∧
    (S.totalTicks - t.agingCount > 1500 →
      ((agedThread t).priority > 99 → agedThread t ∈ (aging q S).L1) ∧
      (¬ (agedThread t).priority > 99 → (agedThread t).priority > 49 →
          agedThread t ∈ (aging q S).L2) ∧
      (¬ (agedThread t).priority > 99 → ¬ (agedThread t).priority > 49 →
          agedThread t ∈ (aging q S).L3)) := by
  obtain ⟨pre, post, hsplit⟩ := List.append_of_mem hmem
  have hmap := hnd
  rw [hsplit, List.map_append, List.map_cons, List.nodup_append] at hmap
  obtain ⟨hnd1, hnd2, hdisj⟩ := hmap
  have htpre : t.tid ∉ pre.map Thread.tid :=
    fun hin => hdisj hin (List.mem_cons_self _ _)
  have htpost : t.tid ∉ post.map Thread.tid := (List.nodup_cons.mp hnd2).1
  have hpre : ∀ u ∈ pre, t.tid ≠ u.tid := by
    intro u hu heq
    exact htpre (heq ▸ List.mem_map_of_mem Thread.tid hu)
  have hpost : ∀ u ∈ post, t.tid ≠ u.tid := by
    intro u hu heq
    exact htpost (heq ▸ List.mem_map_of_mem Thread.tid hu)
  have hfold : aging q S =
      List.foldl (agingOne q) (agingOne q (List.foldl (agingOne q) S pre) t) post := by
    unfold aging
    rw [hsplit, List.foldl_append, List.foldl_cons]
  have hTticks : (List.foldl (agingOne q) S pre).totalTicks = S.totalTicks :=
    totalTicks_foldl_agingOne q pre S
  have hTmem : t ∈ getQ (List.foldl (agingOne q) S pre) q :=
    foldl_agingOne_mem_preserved hmem hpre
  refine ⟨agedThread_eq t, ?_, ?_⟩
  · intro hgap
    have hstep : agingOne q (List.foldl (agingOne q) S pre) t =
        List.foldl (agingOne q) S pre :=
      agingOne_stale (by rw [hTticks]; exact hgap)
    rw [hfold, hstep]
    exact foldl_agingOne_mem_preserved hTmem hpost
  · intro hgap
    have hstep : agingOne q (List.foldl (agingOne q) S pre) t =
        routeAged (agedThread t) (removedState q (List.foldl (agingOne q) S pre) t) :=
      agingOne_aged (by rw [hTticks]; exact hgap)
    have hagedtid : ∀ u ∈ post, (agedThread t).tid ≠ u.tid := by
      intro u hu
      rw [tid_agedThread]
      exact hpost u hu
    refine ⟨?_, ?_, ?_⟩
    · intro hp
      rw [hfold, hstep]
      exact @foldl_agingOne_mem_preserved (agedThread t) q QIdx.Q1 post _
        (self_mem_routeAged_L1 hp) hagedtid
    · intro hp1 hp2
      rw [hfold, hstep]
      exact @foldl_agingOne_mem_preserved (agedThread t) q QIdx.Q2 post _
        (self_mem_routeAged_L2 hp1 hp2) hagedtid
    · intro hp1 hp2
      rw [hfold, hstep]
      exact @foldl_agingOne_mem_preserved (agedThread t) q QIdx.Q3 post _
        (self_mem_routeAged_L3 hp1 hp2) hagedtid

/-! ### Concrete state for the C5 witness -/

def threadC5 : Thread := mkThread 11 45 8 2 0

def stateC5 : SchedState :=
  { L1 := [], L2 := [], L3 := [threadC5], current := mkThread 8 10 0 0 0,
    roundRobin := false, yieldOnReturn := false, toBeDestroyed := none,
    destroyed := [], totalTicks := 1600 }

/-- Witness for C5: at tick 1600 a single L3 resident stamped at tick 0 is
aged once: its mark moves to 1500, its priority from 45 to 55, and it ends
in L2. -/
theorem C5_aging_effect_witness :
    agedThread threadC5 =
      { threadC5 with agingCount := threadC5.agingCount + 1500,
                      priority := min (threadC5.priority + 10) 149 } ∧
    agedThread threadC5 ∈ (aging QIdx.Q3 stateC5).L2 := by
  have h := C5_aging_effect stateC5 QIdx.Q3 threadC5 (by decide) (by decide)
  exact ⟨h.1, (h.2.2 (by decide)).2.1 (by decide) (by decide)⟩

/-! ### Aging band migration (claim C6) -/

/-- Claim C6 (amended): after every aging pass band membership and physical
queue agree (BandOK is preserved), and an aged thread whose new priority
crosses into a higher band is removed from its current queue and inserted
into the queue matching the new band (to L1 at priority at least 100, to L2
at priority in [50,100)); however a thread that ages without crossing a band
boundary does NOT keep its position: the source removes it and re-inserts it
into the same queue, so an aged L3 thread still below priority 50 is
appended at the BACK of the L3 FIFO. -/
theorem C6_aging_band_migration (S : SchedState) (q : QIdx) (t : Thread)
    (hgap : S.totalTicks - t.agingCount > 1500) :
    (∀ T : SchedState, BandOK T → BandOK (aging q T)) ∧
    (100 ≤ (agedThread t).priority →
        (agingOne q S t).L1 = insertPredict (agedThread t) (removedState q S t).L1) ∧
    (50 ≤ (agedThread t).priority → (agedThread t).priority < 100 →
        (agingOne q S t).L2 = insertPriority (agedThread t) (removedState q S t).L2) ∧
    ((agedThread t).priority < 50 →
        (agingOne q S t).L3 = (removedState q S t).L3 ++ [agedThread t]) ∧
    ((agedThread t).priority < 50 →
        (agingOne QIdx.Q3 S t).L3 = removeThread t.tid S.L3 ++ [agedThread t]) := by
  refine ⟨fun T hT => bandOK_aging hT, ?_, ?_, ?_, ?_⟩
  · intro hp
    rw [agingOne_aged hgap]
    unfold routeAged
    rw [if_pos (by omega)]
  · intro hp1 hp2
    rw [agingOne_aged hgap]
    unfold routeAged
    rw [if_neg (by omega), if_pos (by omega)]
  · intro hp
    rw [agingOne_aged hgap]
    unfold routeAged
    rw [if_neg (by omega), if_neg (by omega)]
  · intro hp
    rw [agingOne_aged hgap]
    unfold routeAged
    rw [if_neg (by omega), if_neg (by omega)]
    rfl

def threadC6A : Thread := mkThread 21 30 0 0 0

def threadC6B : Thread := mkThread 22 20 0 0 1000

def stateC6 : SchedState :=
  { L1 := [], L2 := [], L3 := [threadC6A, threadC6B], current := mkThread 8 10 0 0 0,
    roundRobin := false, yieldOnReturn := false, toBeDestroyed := none,
    destroyed := [], totalTicks := 2000 }

/-- Counterexample to C6 as stated: at tick 2000, L3 holds the front thread
(priority 30, mark 0, hence aged to priority 40, still band L3) and behind
it a fresh thread; the claim says the aged thread, not crossing a band,
keeps its position in the L3 FIFO, but the aging pass moves it to the back:
the queue becomes fresh-first and the aged thread is no longer at its old
front position. -/
theorem C6_counterexample :
    stateC6.L3 = [threadC6A, threadC6B] ∧
    stateC6.totalTicks - threadC6A.agingCount > 1500 ∧
    (agedThread threadC6A).priority < 50 ∧
    (aging QIdx.Q3 stateC6).L3 = [threadC6B, agedThread threadC6A] ∧
    (aging QIdx.Q3 stateC6).L3 ≠ [agedThread threadC6A, threadC6B] := by
  decide

/-- Witness for the amended C6: the non-crossing aged L3 thread is removed
and re-appended at the back of L3. -/
theorem C6_aging_band_migration_witness :
    (agingOne QIdx.Q3 stateC6 threadC6A).L3 =
      removeThread threadC6A.tid stateC6.L3 ++ [agedThread threadC6A] :=
  (C6_aging_band_migration stateC6 QIdx.Q3 threadC6A (by decide)).2.2.2.2 (by decide)

/-! ### Admission routing (claim C3) -/

theorem ReadyToRun_snd (S : SchedState) (t : Thread) :
    (ReadyToRun S t).2 = stampReady S t := by
  simp only [ReadyToRun]
  split
  · rfl
  · split
    · rfl
    · split <;> rfl

/-- Claim C3: for every thread with priority below 150, ReadyToRun sets its
status to READY, stamps its aging mark with the current tick, and enqueues
it into exactly the queue of its band (L3 below 50, L2 in [50,100), L1 at
100 and above), leaving the other two queues untouched; consequently the
band agreement invariant holds after every enqueue and after every aging
pass, and under it a queued thread with priority p is in L1 iff p is at
least 100, in L2 iff p is in [50,100), in L3 iff p is below 50. -/
theorem C3_ready_routing (S : SchedState) (t : Thread) (hp : t.priority < 150) :
    ((ReadyToRun S t).2.status = ThreadStatus.READY ∧
     (ReadyToRun S t).2.agingCount = S.totalTicks ∧
     (ReadyToRun S t).2.priority = t.priority ∧
     (ReadyToRun S t).2.tid = t.tid) ∧
    (t.priority < 50 →
        (ReadyToRun S t).1.L3 = S.L3 ++ [(ReadyToRun S t).2] ∧
        (ReadyToRun S t).1.L2 = S.L2 ∧ (ReadyToRun S t).1.L1 = S.L1) ∧
    (50 ≤ t.priority → t.priority < 100 →
        (ReadyToRun S t).1.L2 = insertPriority (ReadyToRun S t).2 S.L2 ∧
        (ReadyToRun S t).1.L1 = S.L1 ∧ (ReadyToRun S t).1.L3 = S.L3) ∧
    (100 ≤ t.priority →
        (ReadyToRun S t).1.L1 = insertPredict (ReadyToRun S t).2 S.L1 ∧
        (ReadyToRun S t).1.L2 = S.L2 ∧ (ReadyToRun S t).1.L3 = S.L3) ∧
    (BandOK S → BandOK (ReadyToRun S t).1) ∧
    (∀ q, BandOK S → BandOK (aging q S)) ∧
    (BandOK S → ∀ u ∈ allThreads S,
        (u ∈ S.L1 ↔ 100 ≤ u.priority) ∧
        (u ∈ S.L2 ↔ 50 ≤ u.priority ∧ u.priority < 100) ∧
        (u ∈ S.L3 ↔ u.priority < 50)) := by
  refine ⟨?_, ?_, ?_, ?_, ?_, fun q hB => bandOK_aging hB, ?_⟩
  · rw [ReadyToRun_snd]
    exact ⟨rfl, rfl, rfl, rfl⟩
  · intro h
    rw [ReadyToRun_L3_eq h]
    exact ⟨rfl, rfl, rfl⟩
  · intro h1 h2
    rw [ReadyToRun_L2_eq h1 h2]
    exact ⟨rfl, rfl, rfl⟩
  · intro h1
    rw [ReadyToRun_L1_eq h1 hp]
    exact ⟨rfl, rfl, rfl⟩
  · intro hB
    obtain ⟨h1, h2, h3⟩ := hB
    by_cases hc1 : t.priority < 50
    · rw [ReadyToRun_L3_eq hc1]
      refine ⟨h1, h2, ?_⟩
      intro u hu
      rcases List.mem_append.mp hu with hu | hu
      · exact h3 u hu
      · simp at hu
        subst hu
        simpa [stampReady] using hc1
    · by_cases hc2 : t.priority < 100
      · rw [ReadyToRun_L2_eq (by omega) hc2]
        refine ⟨h1, ?_, h3⟩
        intro u hu
        rcases mem_insertPriority.mp hu with rfl | hu
        · simp [stampReady]
          omega
        · exact h2 u hu
      · rw [ReadyToRun_L1_eq (by omega) hp]
        refine ⟨?_, h2, h3⟩
        intro u hu
        rcases mem_insertPredict.mp hu with rfl | hu
        · simp [stampReady]
          omega
        · exact h1 u hu
  · intro hB u hu
    obtain ⟨h1, h2, h3⟩ := hB
    have hu3 : u ∈ S.L1 ∨ u ∈ S.L2 ∨ u ∈ S.L3 := by
      simpa [allThreads, List.mem_append, or_assoc] using hu
    refine ⟨⟨fun h => h1 u h, fun h => ?_⟩,
            ⟨fun h => h2 u h, fun h => ?_⟩,
            ⟨fun h => h3 u h, fun h => ?_⟩⟩
    · rcases hu3 with h' | h' | h'
      · exact h'
      · have hx := h2 u h'
        exfalso
        omega
      · have hx := h3 u h'
        exfalso
        omega
    · rcases hu3 with h' | h' | h'
      · have hx := h1 u h'
        exfalso
        omega
      · exact h'
      · have hx := h3 u h'
        exfalso
        omega
    · rcases hu3 with h' | h' | h'
      · have hx := h1 u h'
        exfalso
        omega
      · have hx := h2 u h'
        exfalso
        omega
      · exact h'

def threadC3 : Thread := mkThread 12 70 0 0 0

def stateC3 : SchedState :=
  { L1 := [], L2 := [], L3 := [], current := mkThread 8 10 0 0 0,
    roundRobin := false, yieldOnReturn := false, toBeDestroyed := none,
    destroyed := [], totalTicks := 42 }

/-- Witness for C3: a priority-70 thread readied at tick 42 is stamped and
enqueued into L2. -/
theorem C3_ready_routing_witness :
    (ReadyToRun stateC3 threadC3).2.status = ThreadStatus.READY ∧
    (ReadyToRun stateC3 threadC3).2.agingCount = stateC3.totalTicks ∧
    (ReadyToRun stateC3 threadC3).1.L2 =
      insertPriority (ReadyToRun stateC3 threadC3).2 stateC3.L2 := by
  have h := C3_ready_routing stateC3 threadC3 (by decide)
  exact ⟨h.1.1, h.1.2.1, (h.2.2.1 (by decide) (by decide)).1⟩

/-! ### L1 ordering (claim C7) -/

/-- L1's ordering invariant: residents appear in weakly ascending score
order (spec section 4.1). -/
def L1Sorted (l : List Thread) : Prop :=
  List.Pairwise (fun a b => score a ≤ score b) l

theorem L1Sorted_insertPredict {t : Thread} {l : List Thread} (h : L1Sorted l) :
    L1Sorted (insertPredict t l) := by
  induction l with
  | nil => simp [insertPredict, L1Sorted]
  | cons x xs ih =>
      obtain ⟨hx, hxs⟩ := List.pairwise_cons.mp h
      by_cases hc : cmpPredict x t = true
      · have hlt : score t < score x := cmpPredict_eq_true.mp hc
        unfold insertPredict
        rw [if_pos hc]
        refine List.pairwise_cons.mpr ⟨?_, h⟩
        intro b hb
        rcases List.mem_cons.mp hb with rfl | hb
        · omega
        · have := hx b hb
          omega
      · have hcf : cmpPredict x t = false := Bool.eq_false_iff.mpr hc
        have hle : score x ≤ score t := cmpPredict_eq_false.mp hcf
        unfold insertPredict
        rw [if_neg hc]
        refine List.pairwise_cons.mpr ⟨?_, ih hxs⟩
        intro b hb
        rcases mem_insertPredict.mp hb with rfl | hb
        · exact hle
        · exact hx b hb

theorem insertPredict_stable (t : Thread) (l : List Thread) :
    insertPredict t l =
      List.takeWhile (fun x => ! cmpPredict x t) l ++
        t :: List.dropWhile (fun x => ! cmpPredict x t) l := by
  induction l with
  | nil => simp [insertPredict]
  | cons x xs ih =>
      by_cases hc : cmpPredict x t = true
      · simp [insertPredict, hc, List.takeWhile_cons, List.dropWhile_cons]
      · have hcf : cmpPredict x t = false := Bool.eq_false_iff.mpr hc
        simp [insertPredict, hcf, List.takeWhile_cons, List.dropWhile_cons, ih]

theorem L1Sorted_indexOf_lt {l : List Thread} {A B : Thread}
    (hs : L1Sorted l) (hA : A ∈ l) (hB : B ∈ l) (hlt : score A < score B) :
    List.indexOf A l < List.indexOf B l := by
  induction l with
  | nil => simp at hA
  | cons x xs ih =>
      obtain ⟨hx, hxs⟩ := List.pairwise_cons.mp hs
      by_cases hAx : A = x
      · subst hAx
        have hAB : A ≠ B := fun h => by subst h; omega
        rw [List.indexOf_cons_self, List.indexOf_cons_ne _ hAB]
        omega
      · have hA2 : A ∈ xs := by
          rcases List.mem_cons.mp hA with h | h
          · exact absurd h hAx
          · exact h
        by_cases hBx : B = x
        · subst hBx
          have hxa := hx A hA2
          exfalso
          omega
        · have hB2 : B ∈ xs := by
            rcases List.mem_cons.mp hB with h | h
            · exact absurd h hBx
            · exact h
          rw [List.indexOf_cons_ne _ (Ne.symm hAx), List.indexOf_cons_ne _ (Ne.symm hBx)]
          have := ih hxs hA2 hB2
          omega

/-- Claim C7: in L1 (modelled from the spec as a stable sorted list on the
key `score(t) = predict(t)/2 + lastTime(t)/2`, the comparison cmpPredict of
scheduler.cc), insertion preserves ascending score order, a new thread is
placed after every resident of smaller-or-equal score and before the first
strictly larger one (stable ties), and for any two residents A, B of a
sorted L1 with score(A) < score(B), A sits strictly nearer the front, so A
is dequeued by the front-removing FindNextToRun before B. -/
theorem C7_L1_ordering :
    (∀ (t : Thread) (l : List Thread), L1Sorted l → L1Sorted (insertPredict t l)) ∧
    (∀ (t : Thread) (l : List Thread),
        insertPredict t l =
          List.takeWhile (fun x => ! cmpPredict x t) l ++
            t :: List.dropWhile (fun x => ! cmpPredict x t) l) ∧
    (∀ (l : List Thread) (A B : Thread), L1Sorted l → A ∈ l → B ∈ l →
        score A < score B → List.indexOf A l < List.indexOf B l) :=
  ⟨fun t l h => L1Sorted_insertPredict h,
   insertPredict_stable,
   fun l A B hs hA hB hlt => L1Sorted_indexOf_lt hs hA hB hlt⟩

def threadC7A : Thread := mkThread 31 120 20 0 0

def threadC7B : Thread := mkThread 32 130 60 0 0

/-- Witness for C7: with scores 10 and 30 the smaller-score thread sits at
the strictly smaller index of the sorted L1. -/
theorem C7_L1_ordering_witness :
    List.indexOf threadC7A [threadC7A, threadC7B] <
      List.indexOf threadC7B [threadC7A, threadC7B] :=
  C7_L1_ordering.2.2 [threadC7A, threadC7B] threadC7A threadC7B
    (by unfold L1Sorted; decide) (by decide) (by decide) (by decide)

/-! ### Threads with priority at least 150 (claim C10) -/

theorem mem_allThreads {x : Thread} {T : SchedState} :
    x ∈ allThreads T ↔ x ∈ T.L1 ∨ x ∈ T.L2 ∨ x ∈ T.L3 := by
  simp [allThreads, List.mem_append, or_assoc]

theorem mem_allThreads_routeAged {x t : Thread} {S1 : SchedState}
    (h : x ∈ allThreads (routeAged t S1)) : x = t ∨ x ∈ allThreads S1 := by
  rw [mem_allThreads] at h
  unfold routeAged at h
  split at h
  · rcases h with h | h | h
    · rcases mem_insertPredict.mp h with rfl | h
      · exact Or.inl rfl
      · exact Or.inr (mem_allThreads.mpr (Or.inl h))
    · exact Or.inr (mem_allThreads.mpr (Or.inr (Or.inl h)))
    · exact Or.inr (mem_allThreads.mpr (Or.inr (Or.inr h)))
  · split at h
    · rcases h with h | h | h
      · exact Or.inr (mem_allThreads.mpr (Or.inl h))
      · rcases mem_insertPriority.mp h with rfl | h
        · exact Or.inl rfl
        · exact Or.inr (mem_allThreads.mpr (Or.inr (Or.inl h)))
      · exact Or.inr (mem_allThreads.mpr (Or.inr (Or.inr h)))
    · rcases h with h | h | h
      · exact Or.inr (mem_allThreads.mpr (Or.inl h))
      · exact Or.inr (mem_allThreads.mpr (Or.inr (Or.inl h)))
      · rcases List.mem_append.mp h with h | h
        · exact Or.inr (mem_allThreads.mpr (Or.inr (Or.inr h)))
        · simp at h
          exact Or.inl h

theorem mem_allThreads_removedState {x u : Thread} {q : QIdx} {S : SchedState}
    (h : x ∈ allThreads (removedState q S u)) : x ∈ allThreads S := by
  rw [mem_allThreads] at h ⊢
  unfold removedState at h
  cases q
  · rcases h with h | h | h
    · exact Or.inl (mem_removeThread h)
    · exact Or.inr (Or.inl h)
    · exact Or.inr (Or.inr h)
  · rcases h with h | h | h
    · exact Or.inl h
    · exact Or.inr (Or.inl (mem_removeThread h))
    · exact Or.inr (Or.inr h)
  · rcases h with h | h | h
    · exact Or.inl h
    · exact Or.inr (Or.inl h)
    · exact Or.inr (Or.inr (mem_removeThread h))

theorem mem_allThreads_agingOne {x u : Thread} {q : QIdx} {S : SchedState}
    (h : x ∈ allThreads (agingOne q S u)) : x.tid = u.tid ∨ x ∈ allThreads S := by
  unfold agingOne at h
  split at h
  · rcases mem_allThreads_routeAged h with rfl | h
    · exact Or.inl (tid_agedThread u)
    · exact Or.inr (mem_allThreads_removedState h)
  · exact Or.inr h

theorem mem_allThreads_foldl {x : Thread} {q : QIdx} {us : List Thread} :
    ∀ {S : SchedState}, x ∈ allThreads (List.foldl (agingOne q) S us) →
      x.tid ∈ us.map Thread.tid ∨ x ∈ allThreads S := by
  induction us with
  | nil => intro S h; exact Or.inr h
  | cons u us ih =>
      intro S h
      rw [List.foldl_cons] at h
      rcases ih h with h | h
      · exact Or.inl (by simp [h])
      · rcases mem_allThreads_agingOne h with h | h
        · exact Or.inl (by simp [h])
        · exact Or.inr h

theorem tid_mem_aging {i : Nat} {q : QIdx} {S : SchedState}
    (h : i ∈ (allThreads (aging q S)).map Thread.tid) :
    i ∈ (allThreads S).map Thread.tid := by
  rcases List.mem_map.mp h with ⟨x, hx, rfl⟩
  rcases mem_allThreads_foldl hx with h2 | h2
  · have hsub : ∀ y ∈ getQ S q, y ∈ allThreads S := by
      cases q <;> intro y hy <;> rw [mem_allThreads] <;> tauto
    rcases List.mem_map.mp h2 with ⟨y, hy, hyx⟩
    exact List.mem_map.mpr ⟨y, hsub y hy, hyx⟩
  · exact List.mem_map.mpr ⟨x, h2, rfl⟩

theorem tid_mem_ageAll {i : Nat} {S : SchedState}
    (h : i ∈ (allThreads (ageAll S)).map Thread.tid) :
    i ∈ (allThreads S).map Thread.tid := by
  unfold ageAll at h
  exact tid_mem_aging (tid_mem_aging (tid_mem_aging h))

theorem FindNextToRun_tid {S : SchedState} {u : Thread} {T : SchedState}
    (h : FindNextToRun S = (some u, T)) :
    u.tid ∈ (allThreads S).map Thread.tid := by
  rcases h1 : (ageAll S).L1 with _ | ⟨a, ra⟩
  · rcases h2 : (ageAll S).L2 with _ | ⟨b, rb⟩
    · rcases h3 : (ageAll S).L3 with _ | ⟨c, rc⟩
      · rw [FindNextToRun_empty h1 h2 h3] at h
        simp at h
      · rw [FindNextToRun_L3 h1 h2 h3] at h
        simp only [Prod.mk.injEq, Option.some.injEq] at h
        obtain ⟨h4, h5⟩ := h
        subst h4
        apply tid_mem_ageAll
        refine List.mem_map.mpr ⟨c, ?_, rfl⟩
        rw [mem_allThreads]
        exact Or.inr (Or.inr (h3 ▸ List.mem_cons_self c rc))
    · rw [FindNextToRun_L2 h1 h2] at h
      simp only [Prod.mk.injEq, Option.some.injEq] at h
      obtain ⟨h4, h5⟩ := h
      subst h4
      apply tid_mem_ageAll
      refine List.mem_map.mpr ⟨b, ?_, rfl⟩
      rw [mem_allThreads]
      exact Or.inr (Or.inl (h2 ▸ List.mem_cons_self b rb))
  · rw [FindNextToRun_L1 h1] at h
    simp only [Prod.mk.injEq, Option.some.injEq] at h
    obtain ⟨h4, h5⟩ := h
    subst h4
    apply tid_mem_ageAll
    refine List.mem_map.mpr ⟨a, ?_, rfl⟩
    rw [mem_allThreads]
    exact Or.inl (h1 ▸ List.mem_cons_self a ra)

/-- Claim C10: a thread whose priority is at least 150 is stamped (status
READY, mark set to the current tick) but inserted into none of the queues
and subject to no preemption check: the scheduler state is returned
unchanged; consequently, if no queued thread shares its id, no subsequent
FindNextToRun on that state can return it. -/
theorem C10_over_priority (S : SchedState) (t : Thread) (hp : 150 ≤ t.priority) :
    (ReadyToRun S t).1 = S ∧
    (ReadyToRun S t).2.status = ThreadStatus.READY ∧
    (ReadyToRun S t).2.agingCount = S.totalTicks ∧
    (ReadyToRun S t).2.priority = t.priority ∧
    (t.tid ∉ (allThreads S).map Thread.tid →
      ∀ u T, FindNextToRun (ReadyToRun S t).1 = (some u, T) → u.tid ≠ t.tid) := by
  have he := @ReadyToRun_over_eq S t hp
  refine ⟨by rw [he], by rw [he]; rfl, by rw [he]; rfl, by rw [he]; rfl, ?_⟩
  intro hnot u T hFind heq
  rw [he] at hFind
  exact hnot (heq ▸ FindNextToRun_tid hFind)

def threadC10 : Thread := mkThread 40 200 6 4 0

def stateC10 : SchedState :=
  { L1 := [], L2 := [], L3 := [], current := mkThread 8 10 0 0 0,
    roundRobin := false, yieldOnReturn := false, toBeDestroyed := none,
    destroyed := [], totalTicks := 7 }

/-- Witness for C10: a priority-200 thread is stamped but the state is
untouched, and the empty scheduler can never dispatch it. -/
theorem C10_over_priority_witness :
    (ReadyToRun stateC10 threadC10).1 = stateC10 ∧
    (ReadyToRun stateC10 threadC10).2.status = ThreadStatus.READY ∧
    (∀ u T, FindNextToRun (ReadyToRun stateC10 threadC10).1 = (some u, T) →
        u.tid ≠ threadC10.tid) := by
  have h := C10_over_priority stateC10 threadC10 (by decide)
  exact ⟨h.1, h.2.1, h.2.2.2.2 (by decide)⟩
